import Mathlib

/-!
Shallow embedding of notmuchfs (src/notmuchfs.c), a FUSE virtual maildir
filesystem over a notmuch mail index.

C strings are modelled as `List Char` (NUL-free unless stated otherwise);
byte positions and sizes are `Nat`.  Filesystem and notmuch-library calls
that the code consumes are passed in as explicit oracle arguments, and the
sequence of index mutations a handler performs is returned as an explicit
operation list, so that frame conditions can be stated.  Paths are assumed
to fit within PATH_MAX, so the strncpy truncations in the source are
identity copies.
-/

set_option autoImplicit false
set_option maxRecDepth 4000

namespace Notmuchfs

/-- Errno values surfaced by the handlers (negated ints in the C code). -/
inductive Errno where
  | ENOENT
  | EACCES
  | Eio
  | EDOM
  | ENOTSUP
  | EOTHER (n : Nat)
deriving DecidableEq, Repr

/-- Stat result; only the size field matters to the embedded claims. -/
structure Stat where
  st_size : Nat
deriving DecidableEq, Repr

instance exceptDecEq {α β : Type} [DecidableEq α] [DecidableEq β] :
    DecidableEq (Except α β) := fun x y =>
  match x, y with
  | .ok a, .ok b =>
    if h : a = b then .isTrue (congrArg Except.ok h)
    else .isFalse (fun he => h (Except.ok.inj he))
  | .error a, .error b =>
    if h : a = b then .isTrue (congrArg Except.error h)
    else .isFalse (fun he => h (Except.error.inj he))
  | .ok _, .error _ => .isFalse (fun he => Except.noConfusion he)
  | .error _, .ok _ => .isFalse (fun he => Except.noConfusion he)

/-- MAX_XLABEL_LENGTH from notmuchfs.c line 117. -/
def MAX_XLABEL_LENGTH : Nat := 1024

/-- The literal X-Label header prefix (notmuchfs.c line 122). -/
def XLABEL : List Char := "X-Label: ".toList

/-- TAG_ERROR_STRING from notmuchfs.c line 714. -/
def TAG_ERROR_STRING : List Char := "ERROR".toList

/-- EXCLUDED_TAGS_MAX_LENGTH from notmuchfs.c line 256. -/
def EXCLUDED_TAGS_MAX_LENGTH : Nat := 128

/-- The NUL byte. -/
def nul : Char := Char.ofNat 0

/-- string_replace (notmuchfs.c lines 178-187): replace every occurrence of
one character with another. -/
def string_replace (s : List Char) (old new : Char) : List Char :=
  s.map (fun c => if c = old then new else c)

/-- strchr as an index: first index of a character in a string. -/
def strchrIdx : List Char → Char → Option Nat
  | [], _ => none
  | x :: xs, c => if x = c then some 0 else (strchrIdx xs c).map (· + 1)

/-- strrchr as an index: last index of a character in a string. -/
def strrchrIdx : List Char → Char → Option Nat
  | [], _ => none
  | x :: xs, c =>
    match strrchrIdx xs c with
    | some i => some (i + 1)
    | none => if x = c then some 0 else none

/-- pread on an in-memory file: up to count bytes starting at off. -/
def pread (f : List Char) (count off : Nat) : List Char :=
  (f.drop off).take count

/-- The open_t handle of notmuchfs.c lines 774-780: backing fd (modelled by
its contents) plus the 1024-byte X-Label header filled at open time. -/
structure OpenT where
  x_label : List Char
  file : List Char
deriving DecidableEq, Repr

/-- notmuchfs_read (notmuchfs.c lines 899-931).  If the offset falls inside
the synthetic header, copy min(1024 - offset, size) header bytes first and
satisfy the rest of the request from the backing file at offset 0;
otherwise read the backing file at offset - 1024. -/
def notmuchfs_read (p : OpenT) (size offset : Nat) : List Char :=
  if offset < MAX_XLABEL_LENGTH then
    ((p.x_label.drop offset).take (min (MAX_XLABEL_LENGTH - offset) size)) ++
      pread p.file (size - min (MAX_XLABEL_LENGTH - offset) size) 0
  else
    pread p.file size (offset - MAX_XLABEL_LENGTH)

/-- The loop of fill_string_with_tags (notmuchfs.c lines 735-757), with the
buffer cursor replaced by the remaining capacity.  A tag whose length is at
least the remaining capacity aborts with an overflow (none); a separating
comma is written only when another tag follows, after a capacity check that
mirrors the one at line 750. -/
def fill_go (remaining : Nat) : List (List Char) → Option (List Char)
  | [] => some []
  | t :: ts =>
    if remaining ≤ t.length then none
    else
      match ts with
      | [] => some t
      | _ :: _ =>
        if remaining - t.length < 1 then none
        else (fill_go (remaining - t.length - 1) ts).map (fun r => t ++ ',' :: r)

/-- fill_string_with_tags (notmuchfs.c lines 726-767): the bytes written
into the tag region of the header; on overflow the whole region is replaced
by TAG_ERROR_STRING. -/
def fill_string_with_tags (length : Nat) (tags : List (List Char)) : List Char :=
  (fill_go length tags).getD TAG_ERROR_STRING

/-- The comma-joined tag list, as the specification phrases it.  Used only
to compare the code's header against the spec's description. -/
def joinTags : List (List Char) → List Char
  | [] => []
  | [t] => t
  | t :: ts => t ++ ',' :: joinTags ts

/-- Header composition in notmuchfs_open (notmuchfs.c lines 829-852): the
XLABEL literal, the tag region (capacity 1024 - 9 - 1), space padding up to
byte 1022, and LF at byte 1023. -/
def build_x_label (tags : List (List Char)) : List Char :=
  let fill := fill_string_with_tags (MAX_XLABEL_LENGTH - XLABEL.length - 1) tags
  XLABEL ++ fill ++
    List.replicate (MAX_XLABEL_LENGTH - 1 - (XLABEL.length + fill.length)) ' ' ++
    ['\n']

/-- notmuchfs_open (notmuchfs.c lines 783-878) restricted to what it stores
in the handle.  lastSeg is the final path segment (after the last slash, or
the whole of path+1 when there is no slash).  find models
notmuch_database_find_message_by_filename on the decoded name: none is a
non-SUCCESS status (open fails with Eio), some none is SUCCESS with a NULL
message (header left zeroed), some (some tags) is a found message.  openf
models open(2) on a backing file name.  The x_label buffer starts as 1024
zero bytes (the memset at line 789). -/
def notmuchfs_open (rdonly : Bool) (lastSeg : List Char)
    (find : Option (Option (List (List Char))))
    (openf : List Char → Except Errno (List Char)) : Except Errno OpenT :=
  if ¬ rdonly then .error .EACCES
  else
    let x0 := List.replicate MAX_XLABEL_LENGTH nul
    if (strchrIdx lastSeg '#').isSome then
      match find with
      | none => .error .Eio
      | some none =>
        match openf (string_replace lastSeg '#' '/') with
        | .ok f => .ok ⟨x0, f⟩
        | .error e => .error e
      | some (some tags) =>
        match openf (string_replace lastSeg '#' '/') with
        | .ok f => .ok ⟨build_x_label tags, f⟩
        | .error e => .error e
    else
      match openf lastSeg with
      | .ok f => .ok ⟨x0, f⟩
      | .error e => .error e

/-- notmuchfs_getattr (notmuchfs.c lines 306-379).  st and lst are the
stat(2)/lstat(2) oracles on backing-store names.  workaround is the
mutt_2476_workaround_allowed configuration flag.  The path includes the
leading slash; all index positions below are positions in the full path,
matching the pointer differences of the C code. -/
def notmuchfs_getattr (workaround : Bool)
    (st lst : List Char → Except Errno Stat) (path : List Char) :
    Except Errno Stat :=
  if path = ['/'] then st ['.']
  else
    let rest := path.drop 1
    match strrchrIdx rest '/' with
    | none => lst rest
    | some k =>
      let ls := k + 1
      let lastSeg := rest.drop (k + 1)
      if lastSeg = "new".toList ∨ lastSeg = "tmp".toList ∨
         lastSeg = "cur".toList then
        st (rest.take ls)
      else
        let fs := (strchrIdx rest '/').getD k + 1
        let wkd := workaround = true ∧ 3 ≤ ls ∧
          (path.drop (ls - 3)).take 3 = "new".toList
        if wkd ∨ (3 < ls - fs ∧ (path.drop fs).take 5 = "/cur/".toList) then
          let trans := string_replace (rest.drop (k + 1)) '#' '/'
          match st trans with
          | .ok s => .ok ⟨s.st_size + MAX_XLABEL_LENGTH⟩
          | .error e => .error e
        else
          .error .ENOENT

/-! Readdir on a notmuch-query cur/ directory. -/

/-- The outcome of stat(2) on a message file inside fill_dir_with_message
(notmuchfs.c lines 588-614): success, ENOENT (message skipped with a
warning), or another error (aborts the readdir). -/
inductive StatRes where
  | ok (st : Stat)
  | enoent
  | err (e : Errno)
deriving DecidableEq, Repr

/-- A message as the readdir loop sees it: its canonical filename in the
backing store and the result of stat(2) on that filename. -/
structure Message where
  fname : List Char
  statRes : StatRes
deriving DecidableEq, Repr

/-- The opendir_t state for OPENDIR_TYPE_NOTMUCH_QUERY: the running offset
counter (initialised to 1 at opendir, line 488) and the not-yet-consumed
tail of the message iterator. -/
structure DirFd where
  next_offset : Nat
  msgs : List Message
deriving DecidableEq, Repr

/-- The opendir state right after notmuchfs_opendir succeeds on a cur/
directory (next_offset = 1). -/
def dirFdInit (msgs : List Message) : DirFd := ⟨1, msgs⟩

/-- Output of the readdir message loop: an error (if some stat failed), the
new offset counter, the remaining iterator tail, and the emitted entries
(encoded name, stat passed to the filler, offset). -/
structure RdOut where
  res : Option Errno
  next : Nat
  rem : List Message
  ents : List (List Char × Option Stat × Nat)
deriving DecidableEq, Repr

/-- The message loop of notmuchfs_readdir (notmuchfs.c lines 651-663) with
fill_dir_with_message (lines 578-623) inlined.  room is the number of
entries the FUSE buffer can still accept (the filler reports full when it
is 0); a full buffer undoes the offset increment so the entry is re-emitted
by the next call; an ENOENT stat skips the message; any other stat error
aborts.  The emitted name is the backing filename with slashes encoded to
hashes, and the advertised size is inflated by MAX_XLABEL_LENGTH
(line 597). -/
def readdir_msgs (next room : Nat) : List Message → RdOut
  | [] => ⟨none, next, [], []⟩
  | m :: ms =>
    match m.statRes with
    | .ok s =>
      if room = 0 then ⟨none, next, m :: ms, []⟩
      else
        let r := readdir_msgs (next + 1) (room - 1) ms
        { r with ents := (string_replace m.fname '/' '#',
                          some ⟨s.st_size + MAX_XLABEL_LENGTH⟩, next) :: r.ents }
    | .enoent => readdir_msgs next room ms
    | .err e => ⟨some e, next, m :: ms, []⟩

/-- notmuchfs_readdir for OPENDIR_TYPE_NOTMUCH_QUERY (notmuchfs.c lines
637-665).  cap is the FUSE buffer capacity in entries.  A call with
offset 0 emits the dot entries (their filler results are ignored but the
offset counter advances by two regardless, lines 640-643); any other call
must present offset_in + 1 = next_offset or fails with EDOM. -/
def notmuchfs_readdir_query (d : DirFd) (offset_in cap : Nat) :
    Option Errno × DirFd × List (List Char × Option Stat × Nat) :=
  if offset_in = 0 then
    let dots :=
      (if 1 ≤ cap then [(".".toList, (none : Option Stat), d.next_offset)] else []) ++
      (if 2 ≤ cap then [("..".toList, (none : Option Stat), d.next_offset + 1)] else [])
    let r := readdir_msgs (d.next_offset + 2) (cap - 2) d.msgs
    (r.res, ⟨r.next, r.rem⟩, dots ++ r.ents)
  else if offset_in + 1 ≠ d.next_offset then
    (some .EDOM, d, [])
  else
    let r := readdir_msgs d.next_offset cap d.msgs
    (r.res, ⟨r.next, r.rem⟩, r.ents)

/-! Rename. -/

/-- notmuch_status_t values distinguished by notmuchfs_rename. -/
inductive notmuch_status where
  | SUCCESS
  | DUPLICATE_MESSAGE_ID
  | OTHER (n : Nat)
deriving DecidableEq, Repr

/-- An observable action of notmuchfs_rename on the backing store or the
notmuch index, in program order. -/
inductive IndexOp where
  | bsRename (f t : List Char)
  | beginAtomic
  | addMessage (t : List Char)
  | removeMessage (f : List Char)
  | findByFilename (t : List Char)
  | maildirFlagsToTags (t : List Char)
  | addTag (t tag : List Char)
  | endAtomic
deriving DecidableEq, Repr

/-- Oracle for the fallible external calls notmuchfs_rename makes. -/
structure RenameOracle where
  bs_rename : List Char → List Char → Except Errno Unit
  begin_ok : Bool
  add_status : notmuch_status
  remove_status : notmuch_status
  find_ok : Bool
  end_ok : Bool

/-- Route chosen by the validation cascade of notmuchfs_rename. -/
inductive RenameRoute where
  | passthrough
  | reject
  | exec (w : Nat)
deriving DecidableEq, Repr

/-- The validation cascade of notmuchfs_rename (notmuchfs.c lines 962-1036).
Searches are over path+1, but positions are reported in the full path, as
the pointer differences in the C code are.  reject corresponds to the
ENOTSUP returns; exec w proceeds to the backing rename with
mutt_2476_workaround = w (0 when no workaround applies). -/
def rename_validate (wk : Bool) (frm dst : List Char) : RenameRoute :=
  match strrchrIdx (frm.drop 1) '#', strrchrIdx (dst.drop 1) '#' with
  | none, none => .passthrough
  | none, some _ => .reject
  | some _, none => .reject
  | some pf', some pt' =>
    let pf := pf' + 1
    let pt := pt' + 1
    if pf ≠ pt then .reject
    else if frm.take pf ≠ dst.take pf then
      let w : Nat :=
        if wk then
          match strrchrIdx (frm.drop 1) '/', strrchrIdx (dst.drop 1) '/' with
          | some sf', some st' =>
            let sf := sf' + 1
            let st := st' + 1
            if 3 ≤ sf ∧ frm.take (sf - 3) = dst.take (sf - 3) then
              if (frm.drop (sf - 3)).take 3 = "cur".toList ∧
                 (dst.drop (st - 3)).take 3 = "new".toList then 1
              else if (frm.drop (sf - 3)).take 3 = "new".toList ∧
                      (dst.drop (st - 3)).take 3 = "cur".toList then 2
              else 0
            else 0
          | _, _ => 0
        else 0
      if w = 0 then .reject else .exec w
    else .exec 0

/-- The execution phase of notmuchfs_rename (notmuchfs.c lines 1041-1135):
decode both last segments, rename on the backing store, then inside an
atomic section add the destination / remove the source (only when the
decoded names differ, and the remove only when the add reported
DUPLICATE_MESSAGE_ID), re-look-up the destination and sync maildir flags to
tags, and for workaround case 1 add the unread tag.  The C code computes
last_slash_from/to with strrchr on path+1 and dereferences the result
without a NULL check; the none branch below marks that undefined behaviour
and is unreachable for maildir-shaped paths. -/
def rename_exec (wk : Bool) (o : RenameOracle) (frm dst : List Char)
    (w : Nat) : Except Errno Unit × List IndexOp :=
  match strrchrIdx (frm.drop 1) '/', strrchrIdx (dst.drop 1) '/' with
  | some sf', some st' =>
    let F := string_replace (frm.drop (sf' + 2)) '#' '/'
    let T := string_replace (dst.drop (st' + 2)) '#' '/'
    match o.bs_rename F T with
    | .error e => (.error e, [.bsRename F T])
    | .ok _ =>
      if o.begin_ok = false then
        (.error .Eio, [.bsRename F T, .beginAtomic])
      else
        let ops2 : List IndexOp :=
          if F ≠ T then
            if o.add_status = .DUPLICATE_MESSAGE_ID then
              [.addMessage T, .removeMessage F]
            else
              [.addMessage T]
          else []
        let ops3 : List IndexOp :=
          if o.find_ok then
            [.findByFilename T, .maildirFlagsToTags T] ++
              (if wk = true ∧ w = 1 then [.addTag T "unread".toList] else [])
          else [.findByFilename T]
        let res : Except Errno Unit :=
          if o.end_ok then .ok () else .error .Eio
        (res, [.bsRename F T, .beginAtomic] ++ ops2 ++ ops3 ++ [.endAtomic])
  | _, _ => (.error (.EOTHER 0), [])

/-- notmuchfs_rename (notmuchfs.c lines 957-1136): validation cascade, then
either passthrough rename, rejection, or the maildir execution phase. -/
def notmuchfs_rename (wk : Bool) (o : RenameOracle) (frm dst : List Char) :
    Except Errno Unit × List IndexOp :=
  match rename_validate wk frm dst with
  | .passthrough =>
    match o.bs_rename (frm.drop 1) (dst.drop 1) with
    | .ok _ => (.ok (), [.bsRename (frm.drop 1) (dst.drop 1)])
    | .error e => (.error e, [.bsRename (frm.drop 1) (dst.drop 1)])
  | .reject => (.error .ENOTSUP, [])
  | .exec w => rename_exec wk o frm dst w

/-! Excluded-tags buffer: init and the strtok loop in opendir. -/

/-- The excluded-tags capture in notmuchfs_init (notmuchfs.c lines
275-285): read up to 128 bytes of CLI output into the buffer and overwrite
the last byte read with NUL; the result is the buffer as a C string. -/
def init_excluded_tags (raw : List Char) : List Char :=
  let n := min raw.length EXCLUDED_TAGS_MAX_LENGTH
  if n = 0 then [] else raw.take (n - 1)

/-- In-place mutation performed by a full strtok pass with delimiter LF
(the loop at notmuchfs.c lines 492-496): every delimiter that terminates a
token, i.e. every LF immediately preceded by a non-LF byte, is overwritten
with NUL; leading and repeated delimiters are skipped without being
written. -/
def strtokMutAux (prev : Char) : List Char → List Char
  | [] => []
  | c :: rest =>
    (if c = '\n' ∧ prev ≠ '\n' then nul else c) :: strtokMutAux c rest

/-- Mutation of the whole C string by the strtok loop (see strtokMutAux). -/
def strtok_mutate : List Char → List Char
  | [] => []
  | c :: rest => c :: strtokMutAux c rest

/-- Token accumulator for the strtok pass: tokens are the maximal nonempty
runs of non-LF bytes, in order. -/
def tokensAux (cur : List Char) : List Char → List (List Char)
  | [] => if cur = [] then [] else [cur.reverse]
  | c :: rest =>
    if c = '\n' then
      if cur = [] then tokensAux [] rest
      else cur.reverse :: tokensAux [] rest
    else tokensAux (c :: cur) rest

/-- The tokens a full strtok pass with delimiter LF yields. -/
def strtok_tokens (l : List Char) : List (List Char) :=
  tokensAux [] l

/-- The tag-exclusion registration loop of notmuchfs_opendir (notmuchfs.c
lines 491-496): strtok walks the excluded_tags buffer, registering each
token with notmuch_query_add_tag_exclude, and mutates the buffer in place.
strtok only sees the buffer up to its first NUL; bytes beyond it are
untouched.  Returns the registered tags and the buffer contents
afterwards. -/
def notmuchfs_opendir_excludes (excluded_tags : List Char) :
    List (List Char) × List Char :=
  let s := excluded_tags.takeWhile (fun c => c ≠ nul)
  let rest := excluded_tags.drop s.length
  (strtok_tokens s, strtok_mutate s ++ rest)

/-! Helper lemmas about the string primitives. -/

theorem string_replace_not_mem {old new : Char} (h : old ≠ new)
    (s : List Char) : old ∉ string_replace s old new := by
  intro hmem
  rcases List.mem_map.mp hmem with ⟨c, _, hc⟩
  by_cases hco : c = old
  · rw [if_pos hco] at hc; exact h hc.symm
  · rw [if_neg hco] at hc; exact hco hc

theorem string_replace_of_not_mem {old new : Char} {s : List Char}
    (h : old ∉ s) : string_replace s old new = s := by
  induction s with
  | nil => rfl
  | cons c cs ih =>
    simp only [List.mem_cons, not_or] at h
    have hc : c ≠ old := fun he => h.1 he.symm
    have ih2 := ih h.2
    simp only [string_replace, List.map_cons] at ih2 ⊢
    rw [if_neg hc, ih2]

theorem decode_encode {p : List Char} (h : '#' ∉ p) :
    string_replace (string_replace p '/' '#') '#' '/' = p := by
  induction p with
  | nil => rfl
  | cons c cs ih =>
    simp only [List.mem_cons, not_or] at h
    have hhash : c ≠ '#' := fun he => h.1 he.symm
    have ih2 := ih h.2
    simp only [string_replace, List.map_cons, List.map_map] at ih2 ⊢
    by_cases h1 : c = '/'
    · subst h1; simp [ih2]
    · rw [if_neg h1, if_neg hhash, ih2]

theorem strchrIdx_not_mem {c : Char} {s : List Char} (h : c ∉ s) :
    strchrIdx s c = none := by
  induction s with
  | nil => rfl
  | cons x xs ih =>
    simp only [List.mem_cons, not_or] at h
    have hx : x ≠ c := fun he => h.1 he.symm
    simp [strchrIdx, hx, ih h.2]

theorem strchrIdx_append_right {c : Char} {xs : List Char} (h : c ∉ xs)
    (ys : List Char) :
    strchrIdx (xs ++ ys) c = (strchrIdx ys c).map (· + xs.length) := by
  induction xs with
  | nil =>
    simp only [List.nil_append, List.length_nil]
    cases strchrIdx ys c <;> simp
  | cons x xt ih =>
    simp only [List.mem_cons, not_or] at h
    have hx : x ≠ c := fun he => h.1 he.symm
    rw [List.cons_append]
    simp only [strchrIdx, hx, if_false, ih h.2, List.length_cons]
    cases strchrIdx ys c with
    | none => rfl
    | some i =>
      simp only [Option.map_some']
      exact congrArg some (by omega)

theorem strrchrIdx_not_mem {c : Char} {s : List Char} (h : c ∉ s) :
    strrchrIdx s c = none := by
  induction s with
  | nil => rfl
  | cons x xs ih =>
    simp only [List.mem_cons, not_or] at h
    have hx : x ≠ c := fun he => h.1 he.symm
    simp [strrchrIdx, ih h.2, hx]

theorem strrchrIdx_append_right {c : Char} {ys : List Char} {i : Nat}
    (h : strrchrIdx ys c = some i) (xs : List Char) :
    strrchrIdx (xs ++ ys) c = some (xs.length + i) := by
  induction xs with
  | nil => simpa using h
  | cons x xt ih =>
    rw [List.cons_append]
    simp only [strrchrIdx, List.append_eq, ih, List.length_cons]
    exact congrArg some (by omega)

theorem strrchrIdx_append_left {c : Char} {ys : List Char} (h : c ∉ ys)
    (xs : List Char) :
    strrchrIdx (xs ++ ys) c = strrchrIdx xs c := by
  induction xs with
  | nil => simp [strrchrIdx_not_mem h, strrchrIdx]
  | cons x xt ih =>
    rw [List.cons_append]
    simp only [strrchrIdx, List.append_eq, ih]

/-! Characterisation of the tag-region fill. -/

theorem fill_go_eq {tags : List (List Char)} (h : tags ≠ []) (r : Nat) :
    fill_go r tags =
      if r ≤ (joinTags tags).length then none else some (joinTags tags) := by
  induction tags generalizing r with
  | nil => exact absurd rfl h
  | cons t ts ih =>
    cases ts with
    | nil =>
      by_cases hr : r ≤ t.length
      · simp [fill_go, joinTags, hr]
      · simp [fill_go, joinTags, hr]
    | cons t2 ts2 =>
      have hlen : (joinTags (t :: t2 :: ts2)).length =
          t.length + 1 + (joinTags (t2 :: ts2)).length := by
        simp only [joinTags, List.length_append, List.length_cons]
        omega
      have ih2 := ih (by simp) (r - t.length - 1)
      have hstep : fill_go r (t :: t2 :: ts2) =
          if r ≤ t.length then none
          else if r - t.length < 1 then none
          else (fill_go (r - t.length - 1) (t2 :: ts2)).map
            (fun x => t ++ ',' :: x) := rfl
      rw [hstep, ih2, hlen]
      by_cases hr : r ≤ t.length
      · rw [if_pos hr, if_pos (by omega)]
      · rw [if_neg hr, if_neg (show ¬(r - t.length < 1) by omega)]
        by_cases h2 : r - t.length - 1 ≤ (joinTags (t2 :: ts2)).length
        · rw [if_pos h2, if_pos (by omega)]
          rfl
        · rw [if_neg h2, if_neg (by omega)]
          rfl

theorem xlabel_budget : MAX_XLABEL_LENGTH - XLABEL.length - 1 = 1014 := by
  decide

theorem fill_string_with_tags_eq (tags : List (List Char)) :
    fill_string_with_tags (MAX_XLABEL_LENGTH - XLABEL.length - 1) tags =
      if MAX_XLABEL_LENGTH - XLABEL.length - 1 ≤ (joinTags tags).length
      then TAG_ERROR_STRING else joinTags tags := by
  cases tags with
  | nil =>
    rw [if_neg (by decide)]
    rfl
  | cons t ts =>
    unfold fill_string_with_tags
    rw [fill_go_eq (by simp)]
    by_cases h : MAX_XLABEL_LENGTH - XLABEL.length - 1 ≤
        (joinTags (t :: ts)).length
    · rw [if_pos h, if_pos h]
      rfl
    · rw [if_neg h, if_neg h]
      rfl

theorem fill_string_length_le (tags : List (List Char)) :
    (fill_string_with_tags (MAX_XLABEL_LENGTH - XLABEL.length - 1) tags).length
      ≤ 1013 := by
  rw [fill_string_with_tags_eq, xlabel_budget]
  by_cases h : 1014 ≤ (joinTags tags).length
  · rw [if_pos h]; decide
  · rw [if_neg h]; omega

theorem build_x_label_parts (tags : List (List Char)) :
    build_x_label tags =
      XLABEL ++ fill_string_with_tags (MAX_XLABEL_LENGTH - XLABEL.length - 1) tags ++
        List.replicate (MAX_XLABEL_LENGTH - 1 -
          (XLABEL.length +
            (fill_string_with_tags (MAX_XLABEL_LENGTH - XLABEL.length - 1) tags).length)) ' ' ++
        ['\n'] := rfl

theorem build_x_label_length (tags : List (List Char)) :
    (build_x_label tags).length = MAX_XLABEL_LENGTH := by
  have h := fill_string_length_le tags
  rw [build_x_label_parts]
  set f := fill_string_with_tags (MAX_XLABEL_LENGTH - XLABEL.length - 1) tags
    with hf
  have hx : XLABEL.length = 9 := by decide
  have hM : MAX_XLABEL_LENGTH = 1024 := rfl
  simp only [List.length_append, List.length_replicate, List.length_cons,
    List.length_nil, hx, hM]
  omega

theorem joinTags_not_mem {c : Char} (hc : c ≠ ',') {tags : List (List Char)}
    (h : ∀ t ∈ tags, c ∉ t) : c ∉ joinTags tags := by
  induction tags with
  | nil => simp [joinTags]
  | cons t ts ih =>
    cases ts with
    | nil =>
      simpa [joinTags] using h t (by simp)
    | cons t2 ts2 =>
      intro hmem
      simp only [joinTags, List.mem_append, List.mem_cons] at hmem
      rcases hmem with hmem | hmem | hmem
      · exact h t (by simp) hmem
      · exact hc hmem
      · exact ih (fun u hu => h u (List.mem_cons_of_mem t hu)) hmem

theorem build_x_label_getD_last (tags : List (List Char)) :
    (build_x_label tags).getD (MAX_XLABEL_LENGTH - 1) nul = '\n' := by
  have h := fill_string_length_le tags
  rw [build_x_label_parts]
  set f := fill_string_with_tags (MAX_XLABEL_LENGTH - XLABEL.length - 1) tags
    with hf
  have hx : XLABEL.length = 9 := by decide
  have hpre : (XLABEL ++ f ++
      List.replicate (MAX_XLABEL_LENGTH - 1 - (XLABEL.length + f.length)) ' ').length =
      MAX_XLABEL_LENGTH - 1 := by
    simp only [List.length_append, List.length_replicate, hx,
      show MAX_XLABEL_LENGTH = 1024 from rfl]
    omega
  rw [List.getD_append_right _ _ _ _ (le_of_eq hpre), hpre]
  simp

theorem build_x_label_not_mem_nul {tags : List (List Char)}
    (h : ∀ t ∈ tags, nul ∉ t) : nul ∉ build_x_label tags := by
  have hfill : nul ∉
      fill_string_with_tags (MAX_XLABEL_LENGTH - XLABEL.length - 1) tags := by
    rw [fill_string_with_tags_eq]
    by_cases hc : MAX_XLABEL_LENGTH - XLABEL.length - 1 ≤ (joinTags tags).length
    · rw [if_pos hc]; decide
    · rw [if_neg hc]; exact joinTags_not_mem (by decide) h
  rw [build_x_label_parts]
  intro hmem
  simp only [List.mem_append, List.mem_cons, List.mem_replicate,
    List.not_mem_nil, or_false] at hmem
  rcases hmem with ((hm | hm) | hm) | hm
  · exact absurd hm (by decide)
  · exact hfill hm
  · exact absurd hm.2 (by decide)
  · exact absurd hm (by decide)

theorem drop_take_one {l : List Char} {o : Nat} (h : o < l.length) (d : Char) :
    (l.drop o).take 1 = [l.getD o d] := by
  rw [List.drop_eq_getElem_cons h, List.getD_eq_getElem _ _ h]
  rfl

/-- C2: for a message found at open time, reading one byte of the virtual
file at any offset o below 1024 returns byte o of the header buffer; that
buffer is exactly 1024 bytes, begins with the literal X-Label prefix,
carries either the comma-joined tag list or the literal ERROR sentinel,
is right-padded with spaces, has LF at byte 1023, and contains no NUL. -/
theorem C2_single_byte_header_reads (tags : List (List Char)) (file : List Char)
    (o : Nat) (ho : o < MAX_XLABEL_LENGTH) :
    notmuchfs_read ⟨build_x_label tags, file⟩ 1 o =
      [(build_x_label tags).getD o nul] ∧
    (build_x_label tags).length = MAX_XLABEL_LENGTH ∧
    (build_x_label tags).take XLABEL.length = XLABEL ∧
    (build_x_label tags).getD (MAX_XLABEL_LENGTH - 1) nul = '\n' ∧
    (∃ region, (region = joinTags tags ∨ region = TAG_ERROR_STRING) ∧
      build_x_label tags =
        XLABEL ++ region ++
          List.replicate (MAX_XLABEL_LENGTH - 1 - (XLABEL.length + region.length)) ' ' ++
          ['\n']) ∧
    ((∀ t ∈ tags, nul ∉ t) → nul ∉ build_x_label tags) := by
  refine ⟨?_, build_x_label_length tags, ?_, build_x_label_getD_last tags, ?_,
    build_x_label_not_mem_nul⟩
  · unfold notmuchfs_read
    rw [if_pos ho]
    have hb : min (MAX_XLABEL_LENGTH - o) 1 = 1 := min_eq_right (by omega)
    rw [hb]
    have hlen : o < (build_x_label tags).length := by
      rw [build_x_label_length]; exact ho
    rw [drop_take_one hlen nul]
    simp [pread]
  · rw [build_x_label_parts, List.append_assoc, List.append_assoc]
    exact List.take_left _ _
  · refine ⟨fill_string_with_tags (MAX_XLABEL_LENGTH - XLABEL.length - 1) tags,
      ?_, build_x_label_parts tags⟩
    rw [fill_string_with_tags_eq]
    by_cases hc : MAX_XLABEL_LENGTH - XLABEL.length - 1 ≤ (joinTags tags).length
    · rw [if_pos hc]; exact Or.inr rfl
    · rw [if_neg hc]; exact Or.inl rfl

/-- Witness for C2 at tags = [a], file empty, offset 0. -/
theorem C2_single_byte_header_reads_witness :
    0 < MAX_XLABEL_LENGTH ∧
    (notmuchfs_read ⟨build_x_label [['a']], []⟩ 1 0 =
        [(build_x_label [['a']]).getD 0 nul] ∧
      (build_x_label [['a']]).length = MAX_XLABEL_LENGTH ∧
      (build_x_label [['a']]).take XLABEL.length = XLABEL ∧
      (build_x_label [['a']]).getD (MAX_XLABEL_LENGTH - 1) nul = '\n' ∧
      (∃ region, (region = joinTags [['a']] ∨ region = TAG_ERROR_STRING) ∧
        build_x_label [['a']] =
          XLABEL ++ region ++
            List.replicate (MAX_XLABEL_LENGTH - 1 -
              (XLABEL.length + region.length)) ' ' ++
            ['\n']) ∧
      ((∀ t ∈ [['a']], nul ∉ t) → nul ∉ build_x_label [['a']])) :=
  ⟨by decide, C2_single_byte_header_reads [['a']] [] 0 (by decide)⟩

/-- C9 counterexample: a single tag of exactly the budget length
(1024 - 9 - 1 = 1014 bytes) makes a comma-joined list that fits within the
budget, yet the code (whose overflow check at line 739 uses a non-strict
comparison) writes the ERROR sentinel instead of the tags. -/
theorem C9_counterexample :
    (joinTags [List.replicate 1014 'a']).length ≤
      MAX_XLABEL_LENGTH - XLABEL.length - 1 ∧
    fill_string_with_tags (MAX_XLABEL_LENGTH - XLABEL.length - 1)
        [List.replicate 1014 'a'] ≠ joinTags [List.replicate 1014 'a'] := by
  have hlen : (joinTags [List.replicate 1014 'a']).length = 1014 := by
    simp [joinTags]
  constructor
  · rw [hlen, xlabel_budget]
  · rw [fill_string_with_tags_eq, if_pos (by rw [hlen, xlabel_budget])]
    intro hcontra
    have hcl := congrArg List.length hcontra
    rw [hlen] at hcl
    have h5 : TAG_ERROR_STRING.length = 5 := by decide
    omega

/-- C9 (amended): the tag region is the ERROR sentinel exactly when the
comma-joined tag list is at least the budget of 1024 - 9 - 1 bytes long
(i.e. strictly more than 1013 bytes), and is the comma-joined list itself
otherwise. -/
theorem C9_tag_region (tags : List (List Char)) :
    fill_string_with_tags (MAX_XLABEL_LENGTH - XLABEL.length - 1) tags =
      if MAX_XLABEL_LENGTH - XLABEL.length - 1 ≤ (joinTags tags).length
      then TAG_ERROR_STRING else joinTags tags :=
  fill_string_with_tags_eq tags

/-- C10: when the opened last segment contains no hash, or the index lookup
reports success with no message, the header buffer stays all zero bytes and
any read below offset 1024 yields NUL bytes in the header positions. -/
theorem C10_zero_header (lastSeg file : List Char)
    (find : Option (Option (List (List Char))))
    (openf : List Char → Except Errno (List Char)) (s o : Nat)
    (ho : o < MAX_XLABEL_LENGTH) :
    (strchrIdx lastSeg '#' = none → openf lastSeg = .ok file →
      notmuchfs_open true lastSeg find openf =
        .ok ⟨List.replicate MAX_XLABEL_LENGTH nul, file⟩) ∧
    ((strchrIdx lastSeg '#').isSome = true →
      openf (string_replace lastSeg '#' '/') = .ok file →
      notmuchfs_open true lastSeg (some none) openf =
        .ok ⟨List.replicate MAX_XLABEL_LENGTH nul, file⟩) ∧
    (notmuchfs_read ⟨List.replicate MAX_XLABEL_LENGTH nul, file⟩ s o).take
        (min (MAX_XLABEL_LENGTH - o) s) =
      List.replicate (min (MAX_XLABEL_LENGTH - o) s) nul := by
  refine ⟨?_, ?_, ?_⟩
  · intro hno hopen
    simp [notmuchfs_open, hno, hopen]
  · intro hyes hopen
    simp [notmuchfs_open, hyes, hopen]
  · unfold notmuchfs_read
    rw [if_pos ho]
    rw [List.drop_replicate, List.take_replicate]
    have hmin : min (min (MAX_XLABEL_LENGTH - o) s) (MAX_XLABEL_LENGTH - o) =
        min (MAX_XLABEL_LENGTH - o) s := min_eq_left (min_le_left _ _)
    rw [hmin]
    exact List.take_left' (by simp)

/-- Witness for C10 at a hash-bearing segment with a missing message. -/
theorem C10_zero_header_witness :
    notmuchfs_open true ['#', 'a'] (some none) (fun _ => .ok []) =
      .ok ⟨List.replicate MAX_XLABEL_LENGTH nul, []⟩ ∧
    (notmuchfs_read ⟨List.replicate MAX_XLABEL_LENGTH nul, []⟩ 5 0).take
        (min (MAX_XLABEL_LENGTH - 0) 5) =
      List.replicate (min (MAX_XLABEL_LENGTH - 0) 5) nul :=
  ⟨(C10_zero_header ['#', 'a'] [] (some none) (fun _ => .ok []) 5 0
      (by decide)).2.1 (by decide) rfl,
   (C10_zero_header ['#', 'a'] [] (some none) (fun _ => .ok []) 5 0
      (by decide)).2.2⟩

/-- The name codec: a backing path encodes to a maildir token by replacing
every slash with a hash (notmuchfs.c lines 592-594). -/
def encode (p : List Char) : List Char := string_replace p '/' '#'

theorem encode_cons_slash (Bt : List Char) :
    encode ('/' :: Bt) = '#' :: string_replace Bt '/' '#' := by
  simp [encode, string_replace]

theorem encode_no_slash (p : List Char) : '/' ∉ encode p :=
  string_replace_not_mem (by decide) p

/-- C1: getattr on a virtual file path reports the backing size plus 1024,
and a read below the header boundary returns min(1024 - o, s) header bytes
followed by the backing file from byte 0, while a read at or beyond the
boundary is exactly a backing read at o - 1024. -/
theorem C1_virtual_file (wk : Bool) (st lst : List Char → Except Errno Stat)
    (q Bt : List Char) (sz : Nat) (po : OpenT) (o s : Nat)
    (hq1 : '/' ∉ q) (hq2 : q ≠ [])
    (hB : '#' ∉ '/' :: Bt)
    (hst : st ('/' :: Bt) = .ok ⟨sz⟩)
    (hpo : po.x_label.length = MAX_XLABEL_LENGTH) :
    notmuchfs_getattr wk st lst
        ('/' :: (q ++ "/cur/".toList ++ encode ('/' :: Bt))) =
      .ok ⟨sz + MAX_XLABEL_LENGTH⟩ ∧
    (o < MAX_XLABEL_LENGTH →
      notmuchfs_read po s o =
        (po.x_label.drop o).take (min (MAX_XLABEL_LENGTH - o) s) ++
          pread po.file (s - min (MAX_XLABEL_LENGTH - o) s) 0 ∧
      ((po.x_label.drop o).take (min (MAX_XLABEL_LENGTH - o) s)).length =
        min (MAX_XLABEL_LENGTH - o) s) ∧
    (MAX_XLABEL_LENGTH ≤ o →
      notmuchfs_read po s o = pread po.file s (o - MAX_XLABEL_LENGTH)) := by
  refine ⟨?_, ?_, ?_⟩
  · -- getattr on the virtual-file path
    have hcur5 : ("/cur/".toList).length = 5 := by decide
    have hencNoSlash : '/' ∉ encode ('/' :: Bt) := encode_no_slash _
    have hpath : ('/' :: (q ++ "/cur/".toList ++ encode ('/' :: Bt))) ≠ ['/'] := by
      intro hcontra
      simp at hcontra
    have hk : strrchrIdx (q ++ "/cur/".toList ++ encode ('/' :: Bt)) '/' =
        some (q.length + 4) := by
      rw [strrchrIdx_append_left hencNoSlash,
        strrchrIdx_append_right (show strrchrIdx "/cur/".toList '/' = some 4
          from by decide)]
    have hseg : (q ++ "/cur/".toList ++ encode ('/' :: Bt)).drop
        (q.length + 4 + 1) = encode ('/' :: Bt) :=
      List.drop_left' (by rw [List.length_append, hcur5])
    have hne : ¬((encode ('/' :: Bt)) = "new".toList ∨
        (encode ('/' :: Bt)) = "tmp".toList ∨
        (encode ('/' :: Bt)) = "cur".toList) := by
      rw [encode_cons_slash]
      intro hcase
      rcases hcase with hc | hc | hc <;>
        · have h2 := congrArg (fun l => l.headD 'z') hc
          simp at h2
    have h0 : strchrIdx ("/cur/".toList ++ encode ('/' :: Bt)) '/' = some 0 := by
      rw [show ("/cur/".toList) = '/' :: "cur/".toList from by decide,
        List.cons_append]
      simp [strchrIdx]
    have hfs : strchrIdx (q ++ "/cur/".toList ++ encode ('/' :: Bt)) '/' =
        some q.length := by
      rw [List.append_assoc, strchrIdx_append_right hq1, h0]
      simp
    have hdropfs : (q ++ "/cur/".toList ++ encode ('/' :: Bt)).drop q.length =
        "/cur/".toList ++ encode ('/' :: Bt) := by
      rw [List.append_assoc]
      exact List.drop_left _ _
    have htake5 : ("/cur/".toList ++ encode ('/' :: Bt)).take 5 =
        "/cur/".toList := List.take_left' hcur5
    have htrans : string_replace (encode ('/' :: Bt)) '#' '/' = '/' :: Bt :=
      decode_encode hB
    unfold notmuchfs_getattr
    rw [if_neg hpath]
    simp only [List.drop_succ_cons, List.drop_zero, List.drop_one,
      List.tail_cons, hk]
    rw [if_neg (by rw [hseg]; exact hne)]
    rw [hfs]
    simp only [Option.getD_some]
    rw [if_pos (Or.inr ⟨by omega, by rw [hdropfs]; exact htake5⟩)]
    rw [hseg, htrans, hst]
  · intro ho
    unfold notmuchfs_read
    rw [if_pos ho]
    refine ⟨rfl, ?_⟩
    rw [List.length_take, List.length_drop, hpo]
    exact min_eq_left (min_le_left _ _)
  · intro ho
    unfold notmuchfs_read
    rw [if_neg (by omega)]

/-- Concrete stat oracle: only the backing path /m/a exists, with size 12. -/
def stA : List Char → Except Errno Stat := fun p =>
  if p = "/m/a".toList then .ok ⟨12⟩ else .error .ENOENT

/-- Witness for C1 at q = q, B = /m/a, offsets 2 and 2000. -/
theorem C1_virtual_file_witness :
    notmuchfs_getattr false stA stA
        ('/' :: (['q'] ++ "/cur/".toList ++ encode ('/' :: "m/a".toList))) =
      .ok ⟨12 + MAX_XLABEL_LENGTH⟩ ∧
    (notmuchfs_read ⟨List.replicate MAX_XLABEL_LENGTH nul, "abc".toList⟩ 3 2 =
        ((List.replicate MAX_XLABEL_LENGTH nul : List Char).drop 2).take
            (min (MAX_XLABEL_LENGTH - 2) 3) ++
          pread "abc".toList (3 - min (MAX_XLABEL_LENGTH - 2) 3) 0 ∧
      (((List.replicate MAX_XLABEL_LENGTH nul : List Char).drop 2).take
          (min (MAX_XLABEL_LENGTH - 2) 3)).length =
        min (MAX_XLABEL_LENGTH - 2) 3) ∧
    notmuchfs_read ⟨List.replicate MAX_XLABEL_LENGTH nul, "abc".toList⟩ 3 2000 =
      pread "abc".toList 3 (2000 - MAX_XLABEL_LENGTH) :=
  ⟨(C1_virtual_file false stA stA ['q'] "m/a".toList 12
      ⟨List.replicate MAX_XLABEL_LENGTH nul, "abc".toList⟩ 2 3
      (by decide) (by decide) (by decide) (by decide) (by simp)).1,
   (C1_virtual_file false stA stA ['q'] "m/a".toList 12
      ⟨List.replicate MAX_XLABEL_LENGTH nul, "abc".toList⟩ 2 3
      (by decide) (by decide) (by decide) (by decide) (by simp)).2.1 (by decide),
   (C1_virtual_file false stA stA ['q'] "m/a".toList 12
      ⟨List.replicate MAX_XLABEL_LENGTH nul, "abc".toList⟩ 2000 3
      (by decide) (by decide) (by decide) (by decide) (by simp)).2.2 (by decide)⟩

/-! Readdir offset lemmas. -/

theorem readdir_msgs_spec (msgs : List Message) :
    ∀ next room,
      (readdir_msgs next room msgs).ents.map (fun e => e.2.2) =
        List.range' next (readdir_msgs next room msgs).ents.length ∧
      (readdir_msgs next room msgs).next =
        next + (readdir_msgs next room msgs).ents.length := by
  induction msgs with
  | nil => intro next room; simp [readdir_msgs]
  | cons m ms ih =>
    intro next room
    cases hst : m.statRes with
    | ok stm =>
      by_cases hr : room = 0
      · simp [readdir_msgs, hst, hr]
      · have ihs := ih (next + 1) (room - 1)
        simp only [readdir_msgs, hst, if_neg hr, List.map_cons, List.length_cons]
        refine ⟨?_, by omega⟩
        rw [ihs.1, List.range'_succ]
    | enoent =>
      have ihs := ih next room
      simpa [readdir_msgs, hst] using ihs
    | err e =>
      simp [readdir_msgs, hst]

theorem readdir_msgs_room0 (msgs : List Message) :
    ∀ next, (readdir_msgs next 0 msgs).ents = [] := by
  induction msgs with
  | nil => intro next; simp [readdir_msgs]
  | cons m ms ih =>
    intro next
    cases hst : m.statRes with
    | ok stm => simp [readdir_msgs, hst]
    | enoent => simpa [readdir_msgs, hst] using ih next
    | err e => simp [readdir_msgs, hst]

theorem readdir_msgs_stalled (msgs : List Message) :
    ∀ next room m rem,
      (readdir_msgs next room msgs).res = none →
      (readdir_msgs next room msgs).rem = m :: rem →
      ∃ stm, m.statRes = .ok stm := by
  induction msgs with
  | nil => intro next room m rem _ hrem; simp [readdir_msgs] at hrem
  | cons m0 ms ih =>
    intro next room m rem hres hrem
    cases hst : m0.statRes with
    | ok stm =>
      by_cases hr : room = 0
      · simp only [readdir_msgs, hst, if_pos hr] at hrem
        exact ⟨stm, (List.cons.injEq _ _ _ _).mp hrem |>.1 ▸ hst⟩
      · simp only [readdir_msgs, hst, if_neg hr] at hres hrem
        exact ih (next + 1) (room - 1) m rem hres hrem
    | enoent =>
      simp only [readdir_msgs, hst] at hres hrem
      exact ih next room m rem hres hrem
    | err e =>
      simp [readdir_msgs, hst] at hres

/-- C3: across a cur/ readdir sequence, the call with offset 0 emits the dot
entries at offsets 1 and 2, every accepted call emits entries at the
consecutive offsets starting at the state's next_offset (no gaps) and
advances next_offset by exactly the number of entries emitted, a
continuation whose offset does not match fails with EDOM emitting nothing,
and the message that did not fit in a full buffer is re-emitted first, at
the next offset, by the following call. -/
theorem C3_readdir_offsets (msgs rem : List Message) (d : DirFd)
    (offset_in cap : Nat) (m : Message) (stm : Stat) :
    (2 ≤ cap →
      (notmuchfs_readdir_query (dirFdInit msgs) 0 cap).2.2.take 2 =
        [(".".toList, none, 1), ("..".toList, none, 2)]) ∧
    ((notmuchfs_readdir_query d offset_in cap).2.2.map (fun e => e.2.2) =
      List.range' d.next_offset
        (notmuchfs_readdir_query d offset_in cap).2.2.length) ∧
    (offset_in = 0 → 2 ≤ cap →
      (notmuchfs_readdir_query d offset_in cap).2.1.next_offset =
        d.next_offset + (notmuchfs_readdir_query d offset_in cap).2.2.length) ∧
    (offset_in ≠ 0 → offset_in + 1 = d.next_offset →
      (notmuchfs_readdir_query d offset_in cap).2.1.next_offset =
        d.next_offset + (notmuchfs_readdir_query d offset_in cap).2.2.length) ∧
    (offset_in ≠ 0 → offset_in + 1 ≠ d.next_offset →
      notmuchfs_readdir_query d offset_in cap = (some .EDOM, d, [])) ∧
    (d.msgs = m :: rem → m.statRes = .ok stm → 1 ≤ cap →
      2 ≤ d.next_offset →
      (notmuchfs_readdir_query d (d.next_offset - 1) cap).2.2.head? =
        some (string_replace m.fname '/' '#',
          some ⟨stm.st_size + MAX_XLABEL_LENGTH⟩, d.next_offset)) := by
  refine ⟨?_, ?_, ?_, ?_, ?_, ?_⟩
  · intro hcap
    unfold notmuchfs_readdir_query
    rw [if_pos rfl, if_pos (by omega : 1 ≤ cap), if_pos hcap]
    show (([(".".toList, (none : Option Stat), 1)] ++
      [("..".toList, (none : Option Stat), 2)]) ++ _).take 2 = _
    rw [List.take_append_of_le_length (by simp)]
    rfl
  · by_cases h0 : offset_in = 0
    · subst h0
      unfold notmuchfs_readdir_query
      rw [if_pos rfl]
      have hspec := readdir_msgs_spec d.msgs (d.next_offset + 2) (cap - 2)
      rcases Nat.lt_or_ge cap 1 with hc | hc
      · have hc0 : cap = 0 := by omega
        subst hc0
        rw [if_neg (by omega), if_neg (by omega)]
        simp only [List.nil_append]
        rw [readdir_msgs_room0]
        simp
      · rcases Nat.lt_or_ge cap 2 with hc2 | hc2
        · have hc1 : cap = 1 := by omega
          subst hc1
          rw [if_pos (by omega), if_neg (by omega)]
          simp only [List.append_nil]
          rw [show (1 : Nat) - 2 = 0 from rfl, readdir_msgs_room0]
          simp
        · rw [if_pos (by omega), if_pos hc2]
          simp only [List.cons_append, List.nil_append, List.map_cons,
            List.length_cons]
          rw [hspec.1]
          have hr2 : List.range' d.next_offset
              ((readdir_msgs (d.next_offset + 2) (cap - 2) d.msgs).ents.length + 1 + 1) =
              d.next_offset :: (d.next_offset + 1) ::
                List.range' (d.next_offset + 2)
                  (readdir_msgs (d.next_offset + 2) (cap - 2) d.msgs).ents.length := by
            rw [List.range'_succ, List.range'_succ]
          rw [hr2]
    · by_cases hmatch : offset_in + 1 = d.next_offset
      · unfold notmuchfs_readdir_query
        rw [if_neg h0, if_neg (by omega)]
        exact (readdir_msgs_spec d.msgs d.next_offset cap).1
      · unfold notmuchfs_readdir_query
        rw [if_neg h0, if_pos hmatch]
        simp
  · intro h0 hcap
    subst h0
    unfold notmuchfs_readdir_query
    rw [if_pos rfl, if_pos (by omega : 1 ≤ cap), if_pos hcap]
    have hspec := readdir_msgs_spec d.msgs (d.next_offset + 2) (cap - 2)
    simp only [List.cons_append, List.nil_append, List.length_cons]
    rw [hspec.2]
    omega
  · intro h0 hmatch
    unfold notmuchfs_readdir_query
    rw [if_neg h0, if_neg (by omega)]
    exact (readdir_msgs_spec d.msgs d.next_offset cap).2
  · intro h0 hmatch
    unfold notmuchfs_readdir_query
    rw [if_neg h0, if_pos hmatch]
  · intro hd hm hcap hn
    unfold notmuchfs_readdir_query
    rw [if_neg (by omega), if_neg (by omega)]
    rw [hd]
    simp only [readdir_msgs, hm]
    rw [if_neg (by omega)]
    simp

/-- Witness for C3 with one ok message, a full-buffer state, and a
mismatched continuation. -/
theorem C3_readdir_offsets_witness :
    (notmuchfs_readdir_query (dirFdInit [⟨"/m/a".toList, .ok ⟨7⟩⟩]) 0 8).2.2.take 2 =
      [(".".toList, none, 1), ("..".toList, none, 2)] ∧
    (notmuchfs_readdir_query ⟨4, []⟩ 9 8).2.2.map (fun e => e.2.2) =
      List.range' 4 (notmuchfs_readdir_query ⟨4, []⟩ 9 8).2.2.length ∧
    (notmuchfs_readdir_query (dirFdInit [⟨"/m/a".toList, .ok ⟨7⟩⟩]) 0 8).2.1.next_offset =
      1 + (notmuchfs_readdir_query (dirFdInit [⟨"/m/a".toList, .ok ⟨7⟩⟩]) 0 8).2.2.length ∧
    (notmuchfs_readdir_query ⟨4, [⟨"/m/a".toList, .ok ⟨7⟩⟩]⟩ 3 8).2.1.next_offset =
      4 + (notmuchfs_readdir_query ⟨4, [⟨"/m/a".toList, .ok ⟨7⟩⟩]⟩ 3 8).2.2.length ∧
    notmuchfs_readdir_query ⟨4, []⟩ 9 8 = (some .EDOM, ⟨4, []⟩, []) ∧
    (notmuchfs_readdir_query ⟨4, [⟨"/m/a".toList, .ok ⟨7⟩⟩]⟩ 3 8).2.2.head? =
      some (string_replace ("/m/a".toList) '/' '#',
        some ⟨7 + MAX_XLABEL_LENGTH⟩, 4) :=
  ⟨(C3_readdir_offsets [⟨"/m/a".toList, .ok ⟨7⟩⟩] [] (dirFdInit []) 0 8
      ⟨"/m/a".toList, .ok ⟨7⟩⟩ ⟨7⟩).1 (by decide),
   (C3_readdir_offsets [] [] ⟨4, []⟩ 9 8 ⟨"/m/a".toList, .ok ⟨7⟩⟩ ⟨7⟩).2.1,
   (C3_readdir_offsets [] [] (dirFdInit [⟨"/m/a".toList, .ok ⟨7⟩⟩]) 0 8
      ⟨"/m/a".toList, .ok ⟨7⟩⟩ ⟨7⟩).2.2.1 rfl (by decide),
   (C3_readdir_offsets [] [] ⟨4, [⟨"/m/a".toList, .ok ⟨7⟩⟩]⟩ 3 8
      ⟨"/m/a".toList, .ok ⟨7⟩⟩ ⟨7⟩).2.2.2.1 (by decide) rfl,
   (C3_readdir_offsets [] [] ⟨4, []⟩ 9 8
      ⟨"/m/a".toList, .ok ⟨7⟩⟩ ⟨7⟩).2.2.2.2.1 (by decide) (by decide),
   (C3_readdir_offsets [] [] ⟨4, [⟨"/m/a".toList, .ok ⟨7⟩⟩]⟩ 3 8
      ⟨"/m/a".toList, .ok ⟨7⟩⟩ ⟨7⟩).2.2.2.2.2 rfl rfl (by decide) (by decide)⟩

/-! Rename claims. -/

/-- Concrete oracle on which every external call succeeds and the index add
reports SUCCESS (a genuinely new message). -/
def okOracle : RenameOracle :=
  { bs_rename := fun _ _ => .ok ()
    begin_ok := true
    add_status := .SUCCESS
    remove_status := .DUPLICATE_MESSAGE_ID
    find_ok := true
    end_ok := true }

/-- Concrete oracle whose index add reports DUPLICATE_MESSAGE_ID. -/
def dupOracle : RenameOracle :=
  { okOracle with add_status := .DUPLICATE_MESSAGE_ID }

/-- C4: in a validated rename with distinct decoded names whose backing
rename and atomic begin succeed, the destination is added to the index; a
DUPLICATE_MESSAGE_ID add status triggers the removal of the source, and any
other add status (including plain SUCCESS) leaves the source in the index
(the code only logs a warning, which has no observable index effect). -/
theorem C4_rename_duplicate_protocol (wk : Bool) (o : RenameOracle)
    (frm dst : List Char) (w sf' st' : Nat)
    (hval : rename_validate wk frm dst = .exec w)
    (hsf : strrchrIdx (frm.drop 1) '/' = some sf')
    (hst : strrchrIdx (dst.drop 1) '/' = some st')
    (hFT : string_replace (frm.drop (sf' + 2)) '#' '/' ≠
           string_replace (dst.drop (st' + 2)) '#' '/')
    (hbs : o.bs_rename (string_replace (frm.drop (sf' + 2)) '#' '/')
           (string_replace (dst.drop (st' + 2)) '#' '/') = .ok ())
    (hbegin : o.begin_ok = true) :
    IndexOp.addMessage (string_replace (dst.drop (st' + 2)) '#' '/') ∈
      (notmuchfs_rename wk o frm dst).2 ∧
    (o.add_status = .DUPLICATE_MESSAGE_ID →
      IndexOp.removeMessage (string_replace (frm.drop (sf' + 2)) '#' '/') ∈
        (notmuchfs_rename wk o frm dst).2) ∧
    (o.add_status ≠ .DUPLICATE_MESSAGE_ID →
      IndexOp.removeMessage (string_replace (frm.drop (sf' + 2)) '#' '/') ∉
        (notmuchfs_rename wk o frm dst).2) := by
  have hops : notmuchfs_rename wk o frm dst = rename_exec wk o frm dst w := by
    unfold notmuchfs_rename
    rw [hval]
  rw [hops]
  unfold rename_exec
  rw [hsf, hst]
  simp only [hbs, hbegin]
  rw [if_pos hFT]
  refine ⟨?_, ?_, ?_⟩
  · by_cases hdup : o.add_status = notmuch_status.DUPLICATE_MESSAGE_ID <;>
      simp [hdup]
  · intro hdup
    simp [hdup]
  · intro hdup
    rw [if_neg hdup]
    cases hfind : o.find_ok <;>
      by_cases hw : (wk = true ∧ w = 1) <;>
        simp [hfind, hw, hFT]

/-- Witness for C4: a same-directory rename with both add statuses. -/
theorem C4_rename_duplicate_protocol_witness :
    IndexOp.addMessage ("/m/cur/b".toList) ∈
      (notmuchfs_rename false dupOracle "/q/cur/#m#cur#a".toList
        "/q/cur/#m#cur#b".toList).2 ∧
    IndexOp.removeMessage ("/m/cur/a".toList) ∈
      (notmuchfs_rename false dupOracle "/q/cur/#m#cur#a".toList
        "/q/cur/#m#cur#b".toList).2 ∧
    IndexOp.removeMessage ("/m/cur/a".toList) ∉
      (notmuchfs_rename false okOracle "/q/cur/#m#cur#a".toList
        "/q/cur/#m#cur#b".toList).2 := by
  refine ⟨?_, ?_, ?_⟩
  · exact (C4_rename_duplicate_protocol false dupOracle
      "/q/cur/#m#cur#a".toList "/q/cur/#m#cur#b".toList 0 5 5
      (by decide) (by decide) (by decide) (by decide) rfl rfl).1
  · exact (C4_rename_duplicate_protocol false dupOracle
      "/q/cur/#m#cur#a".toList "/q/cur/#m#cur#b".toList 0 5 5
      (by decide) (by decide) (by decide) (by decide) rfl rfl).2.1 rfl
  · exact (C4_rename_duplicate_protocol false okOracle
      "/q/cur/#m#cur#a".toList "/q/cur/#m#cur#b".toList 0 5 5
      (by decide) (by decide) (by decide) (by decide) rfl rfl).2.2 (by decide)

/-- C6 counterexample: a compat-mode rename whose decoded source and
destination coincide still performs the message re-lookup and the
maildir-flags-to-tags normalization on the index (the strncmp guard at line
1072 only skips the add/remove block, not the lookup at lines 1095-1123),
contradicting the claim that steps 4-5 are skipped entirely. -/
theorem C6_counterexample :
    rename_validate true "/q/cur/#m#cur#a".toList "/q/new/#m#cur#a".toList =
      .exec 1 ∧
    string_replace ("/q/cur/#m#cur#a".toList.drop 7) '#' '/' =
      string_replace ("/q/new/#m#cur#a".toList.drop 7) '#' '/' ∧
    IndexOp.findByFilename ("/m/cur/a".toList) ∈
      (notmuchfs_rename true okOracle "/q/cur/#m#cur#a".toList
        "/q/new/#m#cur#a".toList).2 ∧
    IndexOp.maildirFlagsToTags ("/m/cur/a".toList) ∈
      (notmuchfs_rename true okOracle "/q/cur/#m#cur#a".toList
        "/q/new/#m#cur#a".toList).2 := by
  decide

/-- C6 (amended): in a validated rename whose decoded source and destination
coincide (possible under compat mode), no index add and no index remove is
performed; the message re-lookup and maildir-flags normalization still
run. -/
theorem C6_rename_idempotent (wk : Bool) (o : RenameOracle)
    (frm dst : List Char) (w sf' st' : Nat)
    (hval : rename_validate wk frm dst = .exec w)
    (hsf : strrchrIdx (frm.drop 1) '/' = some sf')
    (hst : strrchrIdx (dst.drop 1) '/' = some st')
    (hFT : string_replace (frm.drop (sf' + 2)) '#' '/' =
           string_replace (dst.drop (st' + 2)) '#' '/')
    (hbs : o.bs_rename (string_replace (frm.drop (sf' + 2)) '#' '/')
           (string_replace (dst.drop (st' + 2)) '#' '/') = .ok ())
    (hbegin : o.begin_ok = true) :
    (∀ t, IndexOp.addMessage t ∉ (notmuchfs_rename wk o frm dst).2) ∧
    (∀ f, IndexOp.removeMessage f ∉ (notmuchfs_rename wk o frm dst).2) := by
  have hops : notmuchfs_rename wk o frm dst = rename_exec wk o frm dst w := by
    unfold notmuchfs_rename
    rw [hval]
  rw [hops]
  unfold rename_exec
  rw [hsf, hst]
  simp only [hbs, hbegin]
  rw [if_neg (show ¬(true = false) by decide)]
  rw [if_neg (show ¬(string_replace (frm.drop (sf' + 2)) '#' '/' ≠
        string_replace (dst.drop (st' + 2)) '#' '/') from
      fun hcontra => hcontra hFT)]
  constructor <;>
    · intro x
      cases hfind : o.find_ok <;>
        by_cases hw : (wk = true ∧ w = 1) <;>
          simp [hfind, hw]

/-- Witness for C6 at the compat cur-to-new rename of an unchanged name. -/
theorem C6_rename_idempotent_witness :
    IndexOp.addMessage ("/m/cur/a".toList) ∉
      (notmuchfs_rename true okOracle "/q/cur/#m#cur#a".toList
        "/q/new/#m#cur#a".toList).2 ∧
    IndexOp.removeMessage ("/m/cur/a".toList) ∉
      (notmuchfs_rename true okOracle "/q/cur/#m#cur#a".toList
        "/q/new/#m#cur#a".toList).2 :=
  ⟨(C6_rename_idempotent true okOracle "/q/cur/#m#cur#a".toList
      "/q/new/#m#cur#a".toList 1 5 5
      (by decide) (by decide) (by decide) (by decide) rfl rfl).1 _,
   (C6_rename_idempotent true okOracle "/q/cur/#m#cur#a".toList
      "/q/new/#m#cur#a".toList 1 5 5
      (by decide) (by decide) (by decide) (by decide) rfl rfl).2 _⟩

/-- C5: the rename validation cascade.  A rename where exactly one side
contains a hash is rejected with ENOTSUP and no backing or index operation;
likewise when the last-hash positions differ, and when the byte prefixes
before the last hash differ — unless compat mode rescues a parent-segment
difference of exactly cur versus new (in either direction) with all earlier
bytes equal, in which case validation proceeds to the execution phase. -/
theorem C5_rename_validation (wk : Bool) (o : RenameOracle)
    (frm dst : List Char) :
    ((strrchrIdx (frm.drop 1) '#').isSome ≠ (strrchrIdx (dst.drop 1) '#').isSome →
      notmuchfs_rename wk o frm dst = (.error .ENOTSUP, [])) ∧
    (∀ pf pt, strrchrIdx (frm.drop 1) '#' = some pf →
      strrchrIdx (dst.drop 1) '#' = some pt → pf ≠ pt →
      notmuchfs_rename wk o frm dst = (.error .ENOTSUP, [])) ∧
    (∀ pf, strrchrIdx (frm.drop 1) '#' = some pf →
      strrchrIdx (dst.drop 1) '#' = some pf →
      frm.take (pf + 1) ≠ dst.take (pf + 1) →
      ((wk = false → notmuchfs_rename wk o frm dst = (.error .ENOTSUP, [])) ∧
       (∀ sf st, wk = true →
         strrchrIdx (frm.drop 1) '/' = some sf →
         strrchrIdx (dst.drop 1) '/' = some st →
         ¬(3 ≤ sf + 1 ∧ frm.take (sf + 1 - 3) = dst.take (sf + 1 - 3) ∧
           (((frm.drop (sf + 1 - 3)).take 3 = "cur".toList ∧
             (dst.drop (st + 1 - 3)).take 3 = "new".toList) ∨
            ((frm.drop (sf + 1 - 3)).take 3 = "new".toList ∧
             (dst.drop (st + 1 - 3)).take 3 = "cur".toList))) →
         notmuchfs_rename wk o frm dst = (.error .ENOTSUP, [])) ∧
       (∀ sf st, wk = true →
         strrchrIdx (frm.drop 1) '/' = some sf →
         strrchrIdx (dst.drop 1) '/' = some st →
         3 ≤ sf + 1 → frm.take (sf + 1 - 3) = dst.take (sf + 1 - 3) →
         (frm.drop (sf + 1 - 3)).take 3 = "cur".toList →
         (dst.drop (st + 1 - 3)).take 3 = "new".toList →
         rename_validate wk frm dst = .exec 1) ∧
       (∀ sf st, wk = true →
         strrchrIdx (frm.drop 1) '/' = some sf →
         strrchrIdx (dst.drop 1) '/' = some st →
         3 ≤ sf + 1 → frm.take (sf + 1 - 3) = dst.take (sf + 1 - 3) →
         (frm.drop (sf + 1 - 3)).take 3 = "new".toList →
         (dst.drop (st + 1 - 3)).take 3 = "cur".toList →
         rename_validate wk frm dst = .exec 2))) := by
  refine ⟨?_, ?_, ?_⟩
  · intro hne
    unfold notmuchfs_rename rename_validate
    rcases h1 : strrchrIdx (frm.drop 1) '#' with _ | pf <;>
      rcases h2 : strrchrIdx (dst.drop 1) '#' with _ | pt <;>
        simp only [h1, h2, Option.isSome_none, Option.isSome_some] at hne ⊢
    · exact absurd rfl hne
    · exact absurd rfl hne
  · intro pf pt h1 h2 hne
    unfold notmuchfs_rename rename_validate
    simp only [h1, h2]
    rw [if_pos (show pf + 1 ≠ pt + 1 by omega)]
  · intro pf h1 h2 hprefix
    refine ⟨?_, ?_, ?_, ?_⟩
    · intro hwk
      unfold notmuchfs_rename rename_validate
      simp only [h1, h2, hwk]
      rw [if_neg (show ¬(pf + 1 ≠ pf + 1) from fun h => h rfl),
        if_pos hprefix]
      simp
    · intro sf st hwk hsf hst hnot
      unfold notmuchfs_rename rename_validate
      simp only [h1, h2, hwk, hsf, hst]
      rw [if_neg (show ¬(pf + 1 ≠ pf + 1) from fun h => h rfl),
        if_pos hprefix]
      by_cases hg : 3 ≤ sf + 1 ∧ frm.take (sf + 1 - 3) = dst.take (sf + 1 - 3)
      · rw [if_pos hg]
        by_cases hc1 : (frm.drop (sf + 1 - 3)).take 3 = "cur".toList ∧
            (dst.drop (st + 1 - 3)).take 3 = "new".toList
        · exact absurd ⟨hg.1, hg.2, Or.inl hc1⟩ hnot
        · rw [if_neg hc1]
          by_cases hc2 : (frm.drop (sf + 1 - 3)).take 3 = "new".toList ∧
              (dst.drop (st + 1 - 3)).take 3 = "cur".toList
          · exact absurd ⟨hg.1, hg.2, Or.inr hc2⟩ hnot
          · rw [if_neg hc2]
            simp
      · rw [if_neg hg]
        simp
    · intro sf st hwk hsf hst hge htake hcur hnew
      unfold rename_validate
      simp only [h1, h2, hwk, hsf, hst]
      rw [if_neg (show ¬(pf + 1 ≠ pf + 1) from fun h => h rfl),
        if_pos hprefix]
      have e1 : (3 ≤ sf + 1 ∧
          frm.take (sf + 1 - 3) = dst.take (sf + 1 - 3)) = True :=
        eq_true ⟨hge, htake⟩
      have e2 : ((frm.drop (sf + 1 - 3)).take 3 = "cur".toList ∧
          (dst.drop (st + 1 - 3)).take 3 = "new".toList) = True :=
        eq_true ⟨hcur, hnew⟩
      simp only [e1, e2, if_true]
      rw [if_neg (show ¬(1 = 0) by decide)]
    · intro sf st hwk hsf hst hge htake hnew hcur
      unfold rename_validate
      simp only [h1, h2, hwk, hsf, hst]
      have hnc : ¬((frm.drop (sf + 1 - 3)).take 3 = "cur".toList ∧
          (dst.drop (st + 1 - 3)).take 3 = "new".toList) := by
        intro hcontra
        rw [hnew] at hcontra
        exact absurd hcontra.1 (by decide)
      rw [if_neg (show ¬(pf + 1 ≠ pf + 1) from fun h => h rfl),
        if_pos hprefix]
      have e1 : (3 ≤ sf + 1 ∧
          frm.take (sf + 1 - 3) = dst.take (sf + 1 - 3)) = True :=
        eq_true ⟨hge, htake⟩
      have e2 : ((frm.drop (sf + 1 - 3)).take 3 = "cur".toList ∧
          (dst.drop (st + 1 - 3)).take 3 = "new".toList) = False :=
        eq_false hnc
      have e3 : ((frm.drop (sf + 1 - 3)).take 3 = "new".toList ∧
          (dst.drop (st + 1 - 3)).take 3 = "cur".toList) = True :=
        eq_true ⟨hnew, hcur⟩
      simp only [e1, e2, e3, if_true, if_false]
      rw [if_neg (show ¬(2 = 0) by decide)]

/-- Witness for C5: a mixed-hash rename is rejected and a cur-to-new
compat rename is rescued. -/
theorem C5_rename_validation_witness :
    notmuchfs_rename false okOracle "/a".toList "/a#b".toList =
      (.error .ENOTSUP, []) ∧
    rename_validate true "/q/cur/#m#a".toList "/q/new/#m#a".toList =
      .exec 1 :=
  ⟨(C5_rename_validation false okOracle "/a".toList "/a#b".toList).1
      (by decide),
   (((C5_rename_validation true okOracle "/q/cur/#m#a".toList
      "/q/new/#m#a".toList).2.2 8 (by decide) (by decide)
      (by decide)).2.2.1 5 5 rfl (by decide) (by decide) (by decide)
      (by decide) (by decide) (by decide))⟩

/-- C7: evaluation at the failing input.  With two excluded tags a and b
(buffer a LF b after init), the first opendir registers both tags but
strtok overwrites the separating LF with NUL, so the buffer is mutated and
a second opendir registers only the first tag. -/
theorem C7_excluded_tags_mutated :
    init_excluded_tags "a\nb\n".toList = "a\nb".toList ∧
    (notmuchfs_opendir_excludes "a\nb".toList).1 = [['a'], ['b']] ∧
    (notmuchfs_opendir_excludes "a\nb".toList).2 = ['a', nul, 'b'] ∧
    (notmuchfs_opendir_excludes "a\nb".toList).2 ≠ "a\nb".toList ∧
    (notmuchfs_opendir_excludes
      (notmuchfs_opendir_excludes "a\nb".toList).2).1 = [['a']] := by
  decide

/-- Backing lstat oracle for C8: only a/b exists, with size 7. -/
def lstB : List Char → Except Errno Stat := fun p =>
  if p = "a/b".toList then .ok ⟨7⟩ else .error .ENOENT

/-- Backing stat oracle for C8: only f exists, with size 3. -/
def stF : List Char → Except Errno Stat := fun p =>
  if p = ['f'] then .ok ⟨3⟩ else .error .ENOENT

/-- C8 counterexample: getattr on the two-segment path /a/b (last segment
not new, tmp or cur and hash-free) returns ENOENT even though lstat of a/b
in the backing store succeeds — the code never forwards such paths to the
backing store. -/
theorem C8_counterexample :
    lstB ("a/b".toList) = .ok ⟨7⟩ ∧
    notmuchfs_getattr false lstB lstB "/a/b".toList = .error .ENOENT ∧
    notmuchfs_getattr false lstB lstB "/a/b".toList ≠ lstB ("a/b".toList) := by
  refine ⟨by decide, by decide, by decide⟩

/-- C8 (amended): for a multi-segment path whose last segment b is not new,
tmp or cur: when neither the compat-workaround test (bytes before the last
slash are new) nor the cur test (first segment followed by /cur/ with
last-slash minus first-slash greater than 3) holds, getattr fails with
ENOENT without consulting the backing store (the conclusion holds for every
stat and lstat oracle); when either test holds, the result is the backing
stat of the decoded last segment with its size inflated by 1024. -/
theorem C8_backing_getattr (wk : Bool)
    (st lst : List Char → Except Errno Stat) (a b : List Char) (f : Nat)
    (hb : '/' ∉ b) (hbn : b ≠ "new".toList) (hbt : b ≠ "tmp".toList)
    (hbc : b ≠ "cur".toList)
    (hf : strchrIdx (a ++ '/' :: b) '/' = some f) :
    (¬(wk = true ∧ 3 ≤ a.length + 1 ∧
        (('/' :: (a ++ '/' :: b)).drop (a.length + 1 - 3)).take 3 =
          "new".toList) →
     ¬(3 < a.length + 1 - (f + 1) ∧
        (('/' :: (a ++ '/' :: b)).drop (f + 1)).take 5 = "/cur/".toList) →
     notmuchfs_getattr wk st lst ('/' :: (a ++ '/' :: b)) = .error .ENOENT) ∧
    ((wk = true ∧ 3 ≤ a.length + 1 ∧
        (('/' :: (a ++ '/' :: b)).drop (a.length + 1 - 3)).take 3 =
          "new".toList) ∨
     (3 < a.length + 1 - (f + 1) ∧
        (('/' :: (a ++ '/' :: b)).drop (f + 1)).take 5 = "/cur/".toList) →
     notmuchfs_getattr wk st lst ('/' :: (a ++ '/' :: b)) =
       match st (string_replace b '#' '/') with
       | .ok s => .ok ⟨s.st_size + MAX_XLABEL_LENGTH⟩
       | .error e => .error e) := by
  have hkk : strrchrIdx (a ++ '/' :: b) '/' = some a.length := by
    have h0 : strrchrIdx ('/' :: b) '/' = some 0 := by
      simp [strrchrIdx, strrchrIdx_not_mem hb]
    have h1 := strrchrIdx_append_right h0 a
    simpa using h1
  have hpathne : ('/' :: (a ++ '/' :: b)) ≠ ['/'] := by
    intro hcontra
    simp at hcontra
  have hseg : (a ++ '/' :: b).drop (a.length + 1) = b := by
    have hsplit : a ++ '/' :: b = (a ++ ['/']) ++ b := by simp
    rw [hsplit]
    exact List.drop_left' (by simp)
  have hne : ¬((a ++ '/' :: b).drop (a.length + 1) = "new".toList ∨
      (a ++ '/' :: b).drop (a.length + 1) = "tmp".toList ∨
      (a ++ '/' :: b).drop (a.length + 1) = "cur".toList) := by
    rw [hseg]
    rintro (h | h | h)
    · exact hbn h
    · exact hbt h
    · exact hbc h
  constructor
  · intro hnw hnc
    unfold notmuchfs_getattr
    rw [if_neg hpathne]
    simp only [List.drop_one, List.tail_cons, hkk]
    rw [if_neg hne, hf]
    simp only [Option.getD_some]
    rw [if_neg ?hcond]
    case hcond =>
      rintro (h | h)
      · exact hnw h
      · exact hnc h
  · intro hcond
    unfold notmuchfs_getattr
    rw [if_neg hpathne]
    simp only [List.drop_one, List.tail_cons, hkk]
    rw [if_neg hne, hf]
    simp only [Option.getD_some]
    rw [if_pos hcond, hseg]

/-- Witness for C8: the rejected path /a/b and the accepted path
/q/cur/f. -/
theorem C8_backing_getattr_witness :
    notmuchfs_getattr false stF lstB "/a/b".toList = .error .ENOENT ∧
    notmuchfs_getattr false stF lstB "/q/cur/f".toList =
      .ok ⟨3 + MAX_XLABEL_LENGTH⟩ :=
  ⟨(C8_backing_getattr false stF lstB ['a'] ['b'] 1
      (by decide) (by decide) (by decide) (by decide) (by decide)).1
      (by decide) (by decide),
   Eq.trans
    ((C8_backing_getattr false stF lstB "q/cur".toList ['f'] 1
      (by decide) (by decide) (by decide) (by decide) (by decide)).2
      (Or.inr (by decide)))
    (by decide)⟩

end Notmuchfs
